import Mathlib

/-!
Shallow embedding of the deterministic content-selection and
text-classification pipeline of `app.py` (mirrored by the older copy
`this_day_page_0_11.py`).  Python text is modelled as `List Char`
(`Str` below); `str.lower()` is per-character ASCII case folding;
`str.strip()` removes leading and trailing whitespace characters.
CPython's `random.Random(seed)` (a Mersenne Twister) is modelled as an
abstract deterministic generator: the initial state is a pure function
of the seed and every draw is a pure function of the current state.
None of the verified claims depend on the particular values drawn,
only on the draws being reproducible functions of `(seed, state)`,
on drawn indices being in range, and on sampling-without-replacement
returning the requested number of elements.
-/

abbrev Str := List Char

/-- Python `str.lower()`, modelled per character. -/
def lowerStr (l : Str) : Str := l.map Char.toLower

/-- Python `str.strip()`: drop leading and trailing whitespace. -/
def strip (l : Str) : Str :=
  ((l.dropWhile Char.isWhitespace).reverse.dropWhile Char.isWhitespace).reverse

/-- Python `str.split()` with no separator: split on whitespace runs, dropping empties. -/
def splitWs (l : Str) : List Str :=
  (List.splitOnP Char.isWhitespace l).filter (fun w => !w.isEmpty)

/-- Lexicographic string comparison by code point: Python `s <= t`. -/
def strLe : Str → Str → Bool
  | [], _ => true
  | _ :: _, [] => false
  | c :: cs, d :: ds =>
    if c.toNat < d.toNat then true
    else if d.toNat < c.toNat then false
    else strLe cs ds

/-- Whether the first string is a character-wise prefix of the second. -/
def prefCh : Str → Str → Bool
  | [], _ => true
  | _ :: _, [] => false
  | c :: cs, d :: ds => c == d && prefCh cs ds

/-- Python substring membership `needle in haystack`. -/
def containsSub (needle : Str) : Str → Bool
  | [] => needle.isEmpty
  | c :: rest => prefCh needle (c :: rest) || containsSub needle rest

/-- Python `" ".join(parts)`: one space between consecutive parts. -/
def joinSp : List Str → Str
  | [] => []
  | [x] => x
  | x :: y :: rest => x ++ ' ' :: joinSp (y :: rest)

/-- Python `sep.join(parts)` for a general separator. -/
def joinWith (sep : Str) : List Str → Str
  | [] => []
  | [x] => x
  | x :: y :: rest => x ++ sep ++ joinWith sep (y :: rest)

/-- True iff the string contains two adjacent space characters. -/
def hasDbl : Str → Bool
  | c :: d :: rest => (c == ' ' && d == ' ') || hasDbl (d :: rest)
  | _ => false

/-- Whether the first character is a space. -/
def headSp : Str → Bool
  | [] => false
  | c :: _ => c == ' '

/-- Whether the final character is a space. -/
def lastSp : Str → Bool
  | [] => false
  | [c] => c == ' '
  | _ :: c :: rest => lastSp (c :: rest)

/-- Whether the final character is terminal punctuation. -/
def lastIsPunct (l : Str) : Bool :=
  match l.getLast? with
  | some c => c == '.' || c == '!' || c == '?'
  | none => false

/-- `ends_with_punct` from the source: `s.strip().endswith((".", "!", "?"))`. -/
def ends_with_punct (s : Str) : Bool := lastIsPunct (strip s)

/-- `sentence` from the source: strip, then append a period unless punctuated. -/
def sentence (s : Str) : Str :=
  let t := strip s
  if t.isEmpty then t
  else if ends_with_punct t then t else t ++ ['.']

/-- The `DDD-DDD-DDDD` rendering `digits[0:3]-digits[3:6]-digits[6:10]`. -/
def phoneFormat (d : Str) : Str :=
  d.take 3 ++ '-' :: ((d.drop 3).take 3 ++ '-' :: (d.drop 6).take 4)

/-- `normalize_phone` from the source: reformat exactly-ten-digit strings, else strip. -/
def normalize_phone (s : Str) : Str :=
  let digits := s.filter Char.isDigit
  if digits.length = 10 then phoneFormat digits else strip s

/-- `join_names_nicely` from the source. -/
def join_names_nicely (names : List Str) : Str :=
  let ns := (names.map strip).filter (fun x => !x.isEmpty)
  match ns with
  | [] => []
  | [a] => a
  | [a, b] => a ++ " and ".data ++ b
  | l => joinWith ", ".data l.dropLast ++ ", and ".data ++ (l.getLast?.getD [])

/-- A loosely-typed JSON field value, as read from `birthdays.json`. -/
inductive PyVal
  | pint (n : Int)
  | pstr (s : Str)
  | pnone
deriving DecidableEq

/-- Numeric value of a digit run, used by the `int(string)` model. -/
def digitsVal (l : Str) : Option Nat :=
  if !l.isEmpty && l.all Char.isDigit then
    some (l.foldl (fun acc c => acc * 10 + (c.toNat - 48)) 0)
  else none

/-- Python `int(string)`; `none` where CPython would raise `ValueError`. -/
def strToInt (s : Str) : Option Int :=
  match strip s with
  | '-' :: ds => (digitsVal ds).map (fun v => -(v : Int))
  | '+' :: ds => (digitsVal ds).map (fun v => (v : Int))
  | ds => (digitsVal ds).map (fun v => (v : Int))

/-- `safe_int` from the source: `int(x)`, any failure coerced to the default 0. -/
def safe_int : PyVal → Int
  | .pint n => n
  | .pstr s => (strToInt s).getD 0
  | .pnone => 0

/-- A trivia item `{year, text}` as consumed through `extract_year_text`. -/
structure Item where
  year : Str
  text : Str
deriving DecidableEq

/-- `extract_year_text` from the source: both fields stringified and stripped. -/
def extract_year_text (it : Item) : Str × Str := (strip it.year, strip it.text)

/-- A `birthdays.json` record (the fields the verified core reads). -/
structure BRecord where
  name : Str
  month : PyVal
  day : PyVal
deriving DecidableEq

/-- One step of the modelled pseudo-random generator (see the module comment). -/
def rand (st : Nat) : Nat × Nat :=
  let x := (st * 1103515245 + 12345) % 2147483648
  (x, x)

/-- `random.Random(seed)`: initial generator state, a pure function of the seed. -/
def rngInit (seed : Int) : Nat := (seed.emod 2147483648).toNat

/-- The index drawn for a choice among `len` alternatives. -/
def choiceIdx (st : Nat) (len : Nat) : Nat × Nat :=
  let p := rand st
  (p.1 % len, p.2)

/-- `rng.choice(pool)`; `none` on an empty pool (which the source guards against). -/
def choiceD (st : Nat) : List α → Option α
  | [] => none
  | x :: xs =>
    some ((x :: xs).get ⟨(rand st).1 % (xs.length + 1), Nat.mod_lt _ (Nat.succ_pos _)⟩)

/-- `rng.sample(pool, k)`: `k` draws without replacement, in draw order. -/
def sampleGo : Nat → Nat → List α → List α
  | _, 0, _ => []
  | _, _ + 1, [] => []
  | st, k + 1, x :: xs =>
    let p := rand st
    let i := p.1 % (xs.length + 1)
    (x :: xs).get ⟨i, Nat.mod_lt _ (Nat.succ_pos _)⟩ :: sampleGo p.2 k ((x :: xs).eraseIdx i)

/-- `pick_items` from the source. -/
def pick_items (items : List Item) (n : Nat) (seed : Int) : List Item :=
  match items with
  | [] => []
  | _ =>
    if items.length ≤ n then items
    else sampleGo (rngInit seed) n items

/-- `NEGATIVE_HINTS` from the source. -/
def NEGATIVE_HINTS : List Str :=
  ["war".data, "battle".data, "invasion".data, "massacre".data, "terror".data,
   "terrorist".data, "attack".data, "bomb".data,
   "assassination".data, "assassinated".data, "murder".data, "killed".data,
   "death".data, "died".data, "deadly".data,
   "execution".data, "genocide".data, "riot".data, "shooting".data,
   "earthquake".data, "tsunami".data, "hurricane".data, "tornado".data,
   "flood".data, "wildfire".data, "fire".data,
   "explosion".data, "crash".data, "derail".data, "disaster".data, "catastrophe".data,
   "outbreak".data, "epidemic".data, "plague".data, "pandemic".data, "cholera".data,
   "arrest".data, "convicted".data, "sentenced".data]

/-- `POSITIVE_HINTS` from the source. -/
def POSITIVE_HINTS : List Str :=
  ["won".data, "wins".data, "victory".data, "champion".data, "championship".data,
   "title".data,
   "founded".data, "opens".data, "opened".data, "launch".data, "launched".data,
   "released".data, "debut".data, "premiere".data,
   "first".data, "record".data, "breakthrough".data,
   "discovered".data, "invented".data, "created".data,
   "celebration".data, "festival".data, "concert".data]

/-- `is_positiveish_text` from the source: no negative hint occurs in the lowered text. -/
def is_positiveish_text (text : Str) : Bool :=
  !(NEGATIVE_HINTS.any (fun h => containsSub h (lowerStr text)))

/-- The inline positive-hint test of `pick_positiveish_item`. -/
def hasPositiveHint (text : Str) : Bool :=
  POSITIVE_HINTS.any (fun h => containsSub h (lowerStr text))

/-- The `good` pool of `pick_positiveish_item`: non-empty, positive-ish text. -/
def goodOf (items : List Item) : List Item :=
  items.filter (fun it =>
    !(extract_year_text it).2.isEmpty && is_positiveish_text (extract_year_text it).2)

/-- The `better` pool of `pick_positiveish_item`: `good` items matching a positive hint. -/
def betterOf (items : List Item) : List Item :=
  (goodOf items).filter (fun it => hasPositiveHint (extract_year_text it).2)

/-- `pick_positiveish_item` from the source: `pool = better or good`, then `rng.choice`. -/
def pick_positiveish_item (items : List Item) (seed : Int) : Option Item :=
  match items with
  | [] => none
  | _ =>
    let pool := if (betterOf items).isEmpty then goodOf items else betterOf items
    choiceD (rngInit seed) pool

/-- `extract_birth_name` from the source: text up to the first comma, trimmed. -/
def extract_birth_name (b : Item) : Str :=
  let text := strip b.text
  if text.isEmpty then []
  else strip (text.takeWhile (fun c => !(c == ',')))

/-- The candidate names built by the loop of `pick_famous_birthdays`. -/
def famousCandidates (births : List Item) : List Str :=
  births.filterMap (fun b =>
    let text := strip b.text
    if text.isEmpty then none
    else if !(is_positiveish_text text) then none
    else
      let name := extract_birth_name b
      if name.isEmpty then none else some name)

/-- The seen-set deduplication loop of `pick_famous_birthdays`. -/
def dedupeGo (seen : List Str) : List Str → List Str
  | [] => []
  | x :: xs =>
    if seen.any (fun s => s == lowerStr x) then dedupeGo seen xs
    else x :: dedupeGo (lowerStr x :: seen) xs

/-- Case-insensitive first-seen deduplication: keep each name and delete all
later occurrences with the same lowercased form (fuelled structural recursion;
the fuel is always adequate because filtering never lengthens the list). -/
def specDedupeF : Nat → List Str → List Str
  | 0, _ => []
  | _, [] => []
  | fuel + 1, x :: xs =>
    x :: specDedupeF fuel (xs.filter (fun y => !(lowerStr y == lowerStr x)))

/-- Case-insensitive first-seen deduplication. -/
def specDedupe (l : List Str) : List Str := specDedupeF l.length l

/-- `pick_famous_birthdays` from the source. -/
def pick_famous_birthdays (births : List Item) (seed : Int) (n : Nat) : List Str :=
  match births with
  | [] => []
  | _ =>
    let uniq := dedupeGo [] (famousCandidates births)
    if uniq.isEmpty then []
    else if uniq.length ≤ n then uniq
    else sampleGo (rngInit (seed + 4242)) n uniq

/-- The date-match test of `birthdays_for_date` (fields coerced by `safe_int`). -/
def matchB (month day : Int) (b : BRecord) : Bool :=
  safe_int b.month == month && safe_int b.day == day

/-- `sort_key` from the source: `f"{last}|{name}".lower()` with `last` the final token. -/
def sort_key (x : BRecord) : Str :=
  let name := strip x.name
  let parts := splitWs name
  let last := (parts.getLast?).getD []
  lowerStr (last ++ '|' :: name)

/-- The comparison Python's `sorted(..., key=sort_key)` effectively uses. -/
def brLe (a b : BRecord) : Prop := strLe (sort_key a) (sort_key b) = true

instance (a b : BRecord) : Decidable (brLe a b) :=
  inferInstanceAs (Decidable (_ = true))

/-- `birthdays_for_date` from the source: filter on the date, stable sort by key. -/
def birthdays_for_date (birthdays : List BRecord) (month day : Int) : List BRecord :=
  List.insertionSort brLe (birthdays.filter (matchB month day))

/-- Modelled from the claim: ascending by the pair (lowercased last token,
then lowercased full name), compared lexicographically componentwise. -/
def specPairLe (a b : BRecord) : Bool :=
  let la := lowerStr (((splitWs (strip a.name)).getLast?).getD [])
  let lb := lowerStr (((splitWs (strip b.name)).getLast?).getD [])
  let na := lowerStr (strip a.name)
  let nb := lowerStr (strip b.name)
  strLe la lb && (!(strLe lb la) || strLe na nb)

/-- Whether a record list is sorted according to the claim's composite pair key. -/
def claimSortedB : List BRecord → Bool
  | [] => true
  | [_] => true
  | a :: b :: rest => specPairLe a b && claimSortedB (b :: rest)

/-- The per-item keyword test of `filter_keywords`. -/
def keywordMatch (keywords : List Str) (it : Item) : Bool :=
  let t := lowerStr (extract_year_text it).2
  keywords.any (fun k => containsSub (lowerStr k) t)

/-- `filter_keywords` from the source (the accumulating loop, verbatim). -/
def filter_keywords (items : List Item) (keywords : List Str) : List Item :=
  items.foldl (fun out it => if keywordMatch keywords it then out ++ [it] else out) []

/-- The four opener templates of `make_sms_summary`, with the date label spliced in. -/
def openersOf (dl : Str) : List Str :=
  ["🎉 Hear ye, hear ye: it’s ".data ++ dl ++ " and the vibes are birthday-shaped.".data,
   "✨ Family bulletin! ".data ++ dl ++ " just walked in wearing confetti and demanding cake.".data,
   "🎈Okay team: ".data ++ dl ++ " fun facts incoming — helmets optional, joy required.".data,
   "💌 A cheerful ".data ++ dl ++ " dispatch from the ‘this day’ department of whimsy (now with extra sparkle).".data]

/-- The generic headline used when no positive-ish item is available. -/
def fallbackHeadline : Str :=
  "On this day in history: something interesting definitely happened, and we’re choosing to focus on the sparkle".data

/-- The four ritual sentences of `make_sms_summary`. -/
def rituals : List Str :=
  ["Today’s tiny mission: send one nice text, eat one good snack, and do one dramatic “ta-da!” for no reason.".data,
   "Birthday protocol: deploy emojis, deliver compliments, and do not let the cake-to-fun ratio fall below 1:1.".data,
   "Your assignment (should you choose to accept it): be kind, be goofy, and pretend you’re in a celebratory montage.".data,
   "Mandatory holiday for the soul: laugh once, hype someone up, and consider a second dessert purely on principle.".data]

/-- The four birthday templates, with the joined names spliced in. -/
def bdayLinesOf (nj : Str) : List Str :=
  ["🎂 And MOST importantly: happy birthday to ".data ++ nj ++ "! May your day be fun, your cake be generous, and your group chat be appropriately chaotic.".data,
   "🥳 Birthday alert for ".data ++ nj ++ "! Wishing you big laughs, good food, and absolutely zero responsibilities (except enjoying yourself).".data,
   "🎉 It’s ".data ++ nj ++ "’s birthday! Everyone send love, memes, and possibly a ridiculous amount of cake emojis. 🎂🎂🎂".data,
   "🎈 Today we celebrate ".data ++ nj ++ "! Hope your day is a highlight reel and your year is even better.".data]

/-- The four sign-off sentences of `make_sms_summary`. -/
def signoffs : List Str :=
  ["Love you all — now go forth and be delightful.".data,
   "End of bulletin. Please celebrate responsibly (or at least enthusiastically).".data,
   "This message was brought to you by the Spirit of Patti™ and the Department of Good Vibes.".data,
   "Alright, that’s the report. Somebody cue the birthday playlist!".data]

/-- The raw (pre-`sentence`) parts of `make_sms_summary`, in composition order.
The generator seeded with `seed + 999` is threaded through the draws exactly as
in the source: opener, ritual, a birthday line only when hits exist, sign-off. -/
def sms_raw (date_label fun_fact : Str)
    (featured_events bostonish_featured rock_featured : List Item)
    (birthday_hits : List BRecord) (famous_bdays : List Str) (seed : Int) : List Str :=
  let st0 := rngInit (seed + 999)
  let headline_it := pick_positiveish_item featured_events (seed + 1)
  let sports_it := pick_positiveish_item bostonish_featured (seed + 2)
  let rock_it := pick_positiveish_item rock_featured (seed + 3)
  let c1 := choiceIdx st0 4
  let raw1 := (openersOf date_label).getD c1.1 []
  let raw2 :=
    match headline_it with
    | some it =>
        "On this day in ".data ++ (extract_year_text it).1 ++ ": ".data ++
          (extract_year_text it).2
    | none => fallbackHeadline
  let raw3 := "Did you know? ".data ++ strip fun_fact
  let extras :=
    (match sports_it with
     | some it =>
         ["🏟️ Boston sports corner: ".data ++ (extract_year_text it).1 ++ " — ".data ++
           (extract_year_text it).2]
     | none => []) ++
    (match rock_it with
     | some it =>
         ["🎸 Classic rock time machine: ".data ++ (extract_year_text it).1 ++ " — ".data ++
           (extract_year_text it).2]
     | none => []) ++
    (if famous_bdays.isEmpty then [] else
      ["⭐ Famous birthday roll call: ".data ++ join_names_nicely famous_bdays ++
         " share this date too".data,
       "So yes, today’s theme is: ‘legendary company, acceptable levels of chaos.’".data])
  let c4 := choiceIdx c1.2 4
  let raw4 := rituals.getD c4.1 []
  let step5 : Str × Str × Nat :=
    if birthday_hits.isEmpty then
      ("And if it’s secretly your birthday and you didn’t tell us… congrats on the stealth mission. 😄".data,
       "Still: you deserve a cookie for surviving today. 🍪".data, c4.2)
    else
      let names := birthday_hits.map (fun x => strip x.name)
      let c5 := choiceIdx c4.2 4
      ((bdayLinesOf (join_names_nicely names)).getD c5.1 [],
       "Everybody say happy birthday right now (yes, even the lurkers) 🎊".data, c5.2)
  let c7 := choiceIdx step5.2.2 4
  let raw7 := signoffs.getD c7.1 []
  [raw1, raw2, raw3] ++ extras ++ [raw4, step5.1, step5.2.1, raw7]

/-- The sentences the final join of `make_sms_summary` keeps:
`[p.strip() for p in parts if p.strip()]` with `parts` the `sentence`-wrapped raws. -/
def sms_kept (date_label fun_fact : Str)
    (featured_events bostonish_featured rock_featured : List Item)
    (birthday_hits : List BRecord) (famous_bdays : List Str) (seed : Int) : List Str :=
  ((((sms_raw date_label fun_fact featured_events bostonish_featured rock_featured
      birthday_hits famous_bdays seed).map sentence).map strip).filter (fun q => !q.isEmpty))

/-- `make_sms_summary` from the source: the space-join of the kept sentences. -/
def make_sms_summary (date_label fun_fact : Str)
    (featured_events bostonish_featured rock_featured : List Item)
    (birthday_hits : List BRecord) (famous_bdays : List Str) (seed : Int) : Str :=
  joinSp (sms_kept date_label fun_fact featured_events bostonish_featured rock_featured
    birthday_hits famous_bdays seed)

/-- The module-level state of Python's `random` module.  The source never reads
or writes it in the verified functions (each constructs `random.Random(seed)`
locally), so each embedded wrapper below returns it unchanged. -/
def GState := Nat

/-- `pick_items` with the ambient module random state threaded through. -/
def pick_itemsG (g : GState) (items : List Item) (n : Nat) (seed : Int) :
    List Item × GState := (pick_items items n seed, g)

/-- `pick_positiveish_item` with the ambient module random state threaded through. -/
def pick_positiveish_itemG (g : GState) (items : List Item) (seed : Int) :
    Option Item × GState := (pick_positiveish_item items seed, g)

/-- `pick_famous_birthdays` with the ambient module random state threaded through. -/
def pick_famous_birthdaysG (g : GState) (births : List Item) (seed : Int) (n : Nat) :
    List Str × GState := (pick_famous_birthdays births seed n, g)

/-- `make_sms_summary` with the ambient module random state threaded through. -/
def make_sms_summaryG (g : GState) (date_label fun_fact : Str)
    (featured_events bostonish_featured rock_featured : List Item)
    (birthday_hits : List BRecord) (famous_bdays : List Str) (seed : Int) :
    Str × GState :=
  (make_sms_summary date_label fun_fact featured_events bostonish_featured rock_featured
    birthday_hits famous_bdays seed, g)

/-- Fixture: the 1990 championship event of the headline-pick scenario. -/
def ev1990 : Item := ⟨"1990".data, "Team won the championship".data⟩

/-- Fixture: the 1941 attack event of the headline-pick scenario. -/
def ev1941 : Item := ⟨"1941".data, "A deadly attack occurred".data⟩

/-- Fixture: an event matching a positive hint while also being negative. -/
def evWonWar : Item := ⟨"1945".data, "He won the war".data⟩

/-- Fixture: a birth record producing one candidate name. -/
def evBirth : Item := ⟨"1979".data, "Ada Example, computing pioneer".data⟩

/-- Fixture: birthday record "Zoe Adams" on March 7. -/
def zoeAdams : BRecord := ⟨"Zoe Adams".data, .pint 3, .pint 7⟩

/-- Fixture: birthday record "Amy Zane" on March 7. -/
def amyZane : BRecord := ⟨"Amy Zane".data, .pint 3, .pint 7⟩

/-- Fixture: birthday record "Ann Zane" on May 14. -/
def annZane : BRecord := ⟨"Ann Zane".data, .pint 5, .pint 14⟩

/-- Fixture: birthday record "Bob Zan" on May 14 (last token a prefix of "Zane"). -/
def bobZan : BRecord := ⟨"Bob Zan".data, .pint 5, .pint 14⟩

/-! ### Helper lemmas about `dropWhile`, `strip`, `sentence`, and joins -/

theorem dropWhile_head_false {p : Char → Bool} :
    ∀ {l t : Str} {c : Char}, l.dropWhile p = c :: t → p c = false := by
  intro l
  induction l with
  | nil => intro t c h; simp at h
  | cons a as ih =>
    intro t c h
    rw [List.dropWhile_cons] at h
    split at h
    · exact ih h
    · next hpa =>
      injection h with h1 _
      subst h1
      simpa using hpa

theorem dropWhile_cons_false {p : Char → Bool} {c : Char} (t : Str) (h : p c = false) :
    (c :: t).dropWhile p = c :: t := by
  rw [List.dropWhile_cons, h]
  simp

theorem mem_dropWhile_of {p : Char → Bool} {c : Char} :
    ∀ {l : Str}, c ∈ l → p c = false → c ∈ l.dropWhile p := by
  intro l
  induction l with
  | nil => intro h _; simp at h
  | cons a as ih =>
    intro hm hc
    rw [List.dropWhile_cons]
    split
    · next hpa =>
      rcases List.mem_cons.1 hm with rfl | hm2
      · rw [hc] at hpa; cases hpa
      · exact ih hm2 hc
    · exact hm

theorem getLast?_cons_of_ne {a : Char} {t : Str} (h : t ≠ []) :
    (a :: t).getLast? = t.getLast? := by
  cases t with
  | nil => exact absurd rfl h
  | cons b u => simp [List.getLast?_cons_cons]

theorem getLast?_dropWhile {p : Char → Bool} :
    ∀ {l : Str}, l.dropWhile p ≠ [] → (l.dropWhile p).getLast? = l.getLast? := by
  intro l
  induction l with
  | nil => intro h; simp at h
  | cons a as ih =>
    intro h
    by_cases hpa : p a = true
    · rw [List.dropWhile_cons, if_pos hpa] at h ⊢
      have has : as.dropWhile p ≠ [] := h
      have hasne : as ≠ [] := by
        intro he; rw [he] at has; simp at has
      rw [ih has, getLast?_cons_of_ne hasne]
    · rw [List.dropWhile_cons, if_neg hpa]

theorem strip_head_false {l t : Str} {c : Char} (h : strip l = c :: t) :
    c.isWhitespace = false := by
  rw [strip] at h
  have hD : ((l.dropWhile Char.isWhitespace).reverse.dropWhile Char.isWhitespace).getLast? =
      some c := by
    rw [← List.head?_reverse, h]
    rfl
  have hne : (l.dropWhile Char.isWhitespace).reverse.dropWhile Char.isWhitespace ≠ [] := by
    intro he; rw [he] at hD; simp at hD
  rw [getLast?_dropWhile hne, List.getLast?_reverse] at hD
  cases hcons : l.dropWhile Char.isWhitespace with
  | nil => rw [hcons] at hD; simp at hD
  | cons d u =>
    rw [hcons] at hD
    simp at hD
    subst hD
    exact dropWhile_head_false hcons

theorem strip_last_false {l : Str} {c : Char} (h : (strip l).getLast? = some c) :
    c.isWhitespace = false := by
  rw [strip, List.getLast?_reverse] at h
  cases hcons : (l.dropWhile Char.isWhitespace).reverse.dropWhile Char.isWhitespace with
  | nil => rw [hcons] at h; simp at h
  | cons d u =>
    rw [hcons] at h
    simp at h
    subst h
    exact dropWhile_head_false hcons

theorem strip_eq_self {c : Char} {t : Str} (h1 : c.isWhitespace = false)
    (h2 : ∀ d, (c :: t).getLast? = some d → d.isWhitespace = false) :
    strip (c :: t) = c :: t := by
  rw [strip, dropWhile_cons_false t h1]
  cases hr : (c :: t).reverse with
  | nil => simp at hr
  | cons d u =>
    have hd : (c :: t).getLast? = some d := by
      rw [← List.head?_reverse, hr]
      rfl
    rw [dropWhile_cons_false u (h2 d hd), ← hr, List.reverse_reverse]

theorem strip_idem (l : Str) : strip (strip l) = strip l := by
  cases h : strip l with
  | nil => rfl
  | cons c t =>
    exact strip_eq_self (strip_head_false h)
      (fun d hd => strip_last_false (by rw [h]; exact hd))

theorem strip_ne_nil_of_mem {l : Str} {c : Char} (hm : c ∈ l)
    (hc : c.isWhitespace = false) : strip l ≠ [] := by
  have h1 : c ∈ l.dropWhile Char.isWhitespace := mem_dropWhile_of hm hc
  have h2 : c ∈ (l.dropWhile Char.isWhitespace).reverse := List.mem_reverse.2 h1
  have h3 : c ∈ (l.dropWhile Char.isWhitespace).reverse.dropWhile Char.isWhitespace :=
    mem_dropWhile_of h2 hc
  have h4 : c ∈ strip l := by rw [strip]; exact List.mem_reverse.2 h3
  intro he
  rw [he] at h4
  simp at h4

theorem sentence_ne_nil {s : Str} (h : strip s ≠ []) : sentence s ≠ [] := by
  have hie : (strip s).isEmpty = false := by
    cases hs : strip s with
    | nil => exact absurd hs h
    | cons a t => rfl
  simp only [sentence, hie, Bool.false_eq_true, if_false]
  split
  · exact h
  · simp

theorem sentence_cases (s : Str) :
    sentence s = [] ∨
      (sentence s ≠ [] ∧ strip (sentence s) = sentence s ∧
        lastIsPunct (sentence s) = true) := by
  by_cases h : strip s = []
  · left
    simp [sentence, h]
  · right
    obtain ⟨c, t, hct⟩ : ∃ c t, strip s = c :: t := by
      cases hs : strip s with
      | nil => exact absurd hs h
      | cons c t => exact ⟨c, t, rfl⟩
    have hie : (strip s).isEmpty = false := by rw [hct]; rfl
    refine ⟨sentence_ne_nil h, ?_⟩
    by_cases hp : ends_with_punct (strip s) = true
    · have hsen : sentence s = strip s := by
        simp [sentence, hie, hp]
      rw [hsen]
      refine ⟨strip_idem s, ?_⟩
      rw [ends_with_punct, strip_idem] at hp
      exact hp
    · have hsen : sentence s = strip s ++ ['.'] := by
        simp [sentence, hie, hp]
      rw [hsen]
      constructor
      · rw [hct]
        have hlast : ∀ d, ((c :: t) ++ ['.']).getLast? = some d → d.isWhitespace = false := by
          intro d hd
          rw [List.getLast?_concat] at hd
          injection hd with hd1
          subst hd1
          decide
        have hshape : (c :: t) ++ ['.'] = c :: (t ++ ['.']) := rfl
        rw [hshape]
        exact strip_eq_self (strip_head_false hct) (by rw [← hshape]; exact hlast)
      · simp [lastIsPunct, List.getLast?_concat]

theorem joinSp_ne_nil : ∀ {L : List Str}, L ≠ [] → (∀ p ∈ L, p ≠ []) → joinSp L ≠ []
  | [], h, _ => absurd rfl h
  | [x], _, hp => by simpa [joinSp] using hp x (by simp)
  | x :: y :: rest, _, hp => by
    have hx : x ≠ [] := hp x (by simp)
    simp only [joinSp]
    intro he
    exact hx (List.append_eq_nil.1 he).1

theorem getLast?_append_ne {a b : Str} (h : b ≠ []) : (a ++ b).getLast? = b.getLast? := by
  induction a with
  | nil => rfl
  | cons c u ih =>
    have hshape : (c :: u) ++ b = c :: (u ++ b) := rfl
    have hub : u ++ b ≠ [] := by
      intro he
      exact h (List.append_eq_nil.1 he).2
    rw [hshape, getLast?_cons_of_ne hub, ih]

theorem lastIsPunct_append {a b : Str} (h : b ≠ []) :
    lastIsPunct (a ++ b) = lastIsPunct b := by
  simp only [lastIsPunct]
  rw [getLast?_append_ne h]

theorem lastIsPunct_cons {c : Char} {t : Str} (h : t ≠ []) :
    lastIsPunct (c :: t) = lastIsPunct t := by
  simp only [lastIsPunct]
  rw [getLast?_cons_of_ne h]

theorem lastIsPunct_joinSp : ∀ {L : List Str}, L ≠ [] →
    (∀ p ∈ L, p ≠ [] ∧ lastIsPunct p = true) → lastIsPunct (joinSp L) = true
  | [], h, _ => absurd rfl h
  | [x], _, hp => (hp x (by simp)).2
  | x :: y :: rest, _, hp => by
    have hJ : joinSp (y :: rest) ≠ [] :=
      joinSp_ne_nil (by simp) (fun p hpm => (hp p (by simp [hpm])).1)
    have hshape : joinSp (x :: y :: rest) = x ++ (' ' :: joinSp (y :: rest)) := rfl
    rw [hshape, lastIsPunct_append (by simp), lastIsPunct_cons hJ]
    exact lastIsPunct_joinSp (by simp) (fun p hpm => hp p (by simp [hpm]))

theorem bool_or_regroup (a b c d : Bool) : (a || (b || c || d)) = ((a || b) || c || d) := by
  revert a b c d
  decide

theorem hasDbl_append : ∀ (a b : Str),
    hasDbl (a ++ b) = (hasDbl a || hasDbl b || (lastSp a && headSp b))
  | [], b => by simp [hasDbl, lastSp, headSp]
  | [c], b => by
    cases b with
    | nil => simp [hasDbl, lastSp, headSp]
    | cons d bs =>
      show ((c == ' ' && d == ' ') || hasDbl (d :: bs)) =
        (hasDbl [c] || hasDbl (d :: bs) || (lastSp [c] && headSp (d :: bs)))
      simp only [hasDbl, lastSp, headSp, Bool.false_or]
      exact Bool.or_comm _ _
  | c1 :: c2 :: rest, b => by
    have ih := hasDbl_append (c2 :: rest) b
    show ((c1 == ' ' && c2 == ' ') || hasDbl ((c2 :: rest) ++ b)) =
      (((c1 == ' ' && c2 == ' ') || hasDbl (c2 :: rest)) || hasDbl b ||
        (lastSp (c2 :: rest) && headSp b))
    rw [ih]
    exact bool_or_regroup _ _ _ _

theorem hasDbl_space_cons (J : Str) : hasDbl (' ' :: J) = (headSp J || hasDbl J) := by
  cases J with
  | nil => rfl
  | cons d t =>
    show ((' ' == ' ') && (d == ' ') || hasDbl (d :: t)) = _
    simp [headSp]

theorem headSp_append {x : Str} (h : x ≠ []) (b : Str) : headSp (x ++ b) = headSp x := by
  cases x with
  | nil => exact absurd rfl h
  | cons c t => rfl

theorem headSp_joinSp_cons (y : Str) (rest : List Str) (hy : y ≠ []) :
    headSp (joinSp (y :: rest)) = headSp y := by
  cases rest with
  | nil => rfl
  | cons z r => exact headSp_append hy _

theorem hasDbl_joinSp : ∀ {L : List Str},
    (∀ p ∈ L, p ≠ [] ∧ headSp p = false ∧ lastSp p = false ∧ hasDbl p = false) →
    hasDbl (joinSp L) = false
  | [], _ => rfl
  | [x], hp => (hp x (by simp)).2.2.2
  | x :: y :: rest, hp => by
    obtain ⟨hx, hhx, hlx, hdx⟩ := hp x (by simp)
    obtain ⟨hy, hhy, _, _⟩ := hp y (by simp)
    have ihJ : hasDbl (joinSp (y :: rest)) = false :=
      hasDbl_joinSp (fun p hpm => hp p (by simp [hpm]))
    have hshape : joinSp (x :: y :: rest) = x ++ (' ' :: joinSp (y :: rest)) := rfl
    rw [hshape, hasDbl_append, hasDbl_space_cons, headSp_joinSp_cons y rest hy,
      hdx, hhy, ihJ, hlx]
    simp

/-! ### Sampling length, keyword filter, and classifier lemmas -/

theorem length_sampleGo {α : Type} : ∀ (k st : Nat) (l : List α),
    (sampleGo st k l).length = min k l.length
  | 0, st, l => by simp [sampleGo]
  | k + 1, st, [] => by simp [sampleGo]
  | k + 1, st, x :: xs => by
    have hi : (rand st).1 % (xs.length + 1) < (x :: xs).length :=
      Nat.mod_lt _ (Nat.succ_pos _)
    have he : ((x :: xs).eraseIdx ((rand st).1 % (xs.length + 1))).length = xs.length := by
      have h2 := List.length_eraseIdx_add_one hi
      simp only [List.length_cons] at h2
      omega
    show (sampleGo (rand st).2 k
        ((x :: xs).eraseIdx ((rand st).1 % (xs.length + 1)))).length + 1 =
      min (k + 1) (xs.length + 1)
    rw [length_sampleGo k _ _, he]
    omega

theorem foldl_keyword_acc (keywords : List Str) :
    ∀ (items : List Item) (acc : List Item),
      items.foldl (fun out it => if keywordMatch keywords it then out ++ [it] else out) acc =
        acc ++ items.filter (keywordMatch keywords)
  | [], acc => by simp
  | it :: rest, acc => by
    rw [List.foldl_cons, foldl_keyword_acc keywords rest _]
    by_cases h : keywordMatch keywords it = true <;> simp [List.filter_cons, h]

theorem not_any_eq_all_not {α : Type} (p : α → Bool) :
    ∀ l : List α, (!(l.any p)) = l.all (fun a => !(p a))
  | [] => rfl
  | x :: xs => by
    simp [List.any_cons, List.all_cons, Bool.not_or, not_any_eq_all_not p xs]

/-- C1: every content-selection operation is deterministic.  With the ambient
module-level random state threaded explicitly (the source builds a local
`random.Random(seed)` and never touches the shared generator), each call
leaves that state unchanged, a repeated call with the same arguments returns
the identical output, and the output does not depend on the incoming state. -/
theorem c1_content_selection_deterministic (g g2 : GState)
    (items births fe bf rf : List Item) (n : Nat) (seed : Int)
    (dl ff : Str) (bh : List BRecord) (fb : List Str) :
    ((pick_itemsG g items n seed).2 = g
      ∧ (pick_itemsG (pick_itemsG g items n seed).2 items n seed).1 =
          (pick_itemsG g items n seed).1
      ∧ (pick_itemsG g items n seed).1 = (pick_itemsG g2 items n seed).1)
    ∧ ((pick_positiveish_itemG g items seed).2 = g
      ∧ (pick_positiveish_itemG (pick_positiveish_itemG g items seed).2 items seed).1 =
          (pick_positiveish_itemG g items seed).1
      ∧ (pick_positiveish_itemG g items seed).1 = (pick_positiveish_itemG g2 items seed).1)
    ∧ ((pick_famous_birthdaysG g births seed n).2 = g
      ∧ (pick_famous_birthdaysG (pick_famous_birthdaysG g births seed n).2
            births seed n).1 = (pick_famous_birthdaysG g births seed n).1
      ∧ (pick_famous_birthdaysG g births seed n).1 =
          (pick_famous_birthdaysG g2 births seed n).1)
    ∧ ((make_sms_summaryG g dl ff fe bf rf bh fb seed).2 = g
      ∧ (make_sms_summaryG (make_sms_summaryG g dl ff fe bf rf bh fb seed).2
            dl ff fe bf rf bh fb seed).1 =
          (make_sms_summaryG g dl ff fe bf rf bh fb seed).1
      ∧ (make_sms_summaryG g dl ff fe bf rf bh fb seed).1 =
          (make_sms_summaryG g2 dl ff fe bf rf bh fb seed).1) :=
  ⟨⟨rfl, rfl, rfl⟩, ⟨rfl, rfl, rfl⟩, ⟨rfl, rfl, rfl⟩, ⟨rfl, rfl, rfl⟩⟩

/-- C2: `pick_items` returns exactly `min n |items|` items, is the identity
(order preserved) when `|items| ≤ n`, and returns `[]` on the empty list; it
is a total function, so it never raises for `n ≥ 0`. -/
theorem c2_pick_items_spec (items : List Item) (n : Nat) (seed : Int) :
    (pick_items items n seed).length = min n items.length
    ∧ (items.length ≤ n → pick_items items n seed = items)
    ∧ pick_items [] n seed = ([] : List Item) := by
  refine ⟨?_, ?_, rfl⟩
  · cases items with
    | nil => simp [pick_items]
    | cons x xs =>
      by_cases h : (x :: xs).length ≤ n
      · simp only [pick_items, if_pos h]
        omega
      · simp only [pick_items, if_neg h]
        rw [length_sampleGo]
  · intro h
    cases items with
    | nil => rfl
    | cons x xs =>
      simp only [pick_items]
      rw [if_pos h]

/-- Witness for C2: a list of one item with `n = 3` is returned unchanged. -/
theorem c2_pick_items_witness : pick_items [ev1990] 3 0 = [ev1990] :=
  (c2_pick_items_spec [ev1990] 3 0).2.1 (by decide)

/-- C4: `filter_keywords` is the order-preserving filter keeping exactly the
items whose lowercased text contains some lowercased keyword as a substring;
the empty keyword list keeps nothing, and no item is duplicated (its
multiplicity never exceeds its multiplicity in the input). -/
theorem c4_filter_keywords_spec (items : List Item) (keywords : List Str) :
    filter_keywords items keywords = items.filter (keywordMatch keywords)
    ∧ (filter_keywords items keywords).Sublist items
    ∧ filter_keywords items [] = []
    ∧ ∀ it : Item, (filter_keywords items keywords).count it ≤ items.count it := by
  have h1 : filter_keywords items keywords = items.filter (keywordMatch keywords) := by
    rw [filter_keywords, foldl_keyword_acc]
    simp
  refine ⟨h1, ?_, ?_, ?_⟩
  · rw [h1]
    exact List.filter_sublist items
  · rw [filter_keywords, foldl_keyword_acc]
    simp only [List.nil_append]
    exact List.filter_eq_nil_iff.mpr (fun it _ => by simp [keywordMatch])
  · intro it
    exact List.Sublist.count_le (h1 ▸ List.filter_sublist items) it

/-- C5: `is_positiveish_text` holds exactly when the lowercased text contains
none of the fixed negative hints (positive-ish is the negation of the negative
classification), with the two concrete example classifications. -/
theorem c5_is_positiveish_spec (text : Str) :
    is_positiveish_text text =
        NEGATIVE_HINTS.all (fun h => !(containsSub h (lowerStr text)))
    ∧ (is_positiveish_text text = true ↔
        ∀ hint ∈ NEGATIVE_HINTS, containsSub hint (lowerStr text) = false)
    ∧ is_positiveish_text "a war broke out".data = false
    ∧ is_positiveish_text "the team won the championship".data = true := by
  refine ⟨?_, ?_, by decide, by decide⟩
  · rw [is_positiveish_text, not_any_eq_all_not]
  · rw [is_positiveish_text]
    simp [List.any_eq_true]

/-! ### Lemmas about `choiceD` and the positive-biased pick -/

theorem choiceD_mem {α : Type} {st : Nat} : ∀ {l : List α} {a : α},
    choiceD st l = some a → a ∈ l := by
  intro l a h
  cases l with
  | nil => simp [choiceD] at h
  | cons x xs =>
    simp only [choiceD] at h
    injection h with h1
    rw [← h1]
    exact List.get_mem _ _ _

theorem choiceD_of_ne_nil {α : Type} (st : Nat) {l : List α} (h : l ≠ []) :
    ∃ a, choiceD st l = some a ∧ a ∈ l := by
  cases l with
  | nil => exact absurd rfl h
  | cons x xs => exact ⟨_, rfl, List.get_mem _ _ _⟩

theorem choiceD_singleton {α : Type} (st : Nat) (x : α) : choiceD st [x] = some x := by
  simp [choiceD, Nat.mod_one]

theorem pick_positiveish_eq {items : List Item} (h : items ≠ []) (seed : Int) :
    pick_positiveish_item items seed =
      choiceD (rngInit seed)
        (if (betterOf items).isEmpty then goodOf items else betterOf items) := by
  cases items with
  | nil => exact absurd rfl h
  | cons x xs => rfl

theorem mem_goodOf {items : List Item} {it : Item} (h : it ∈ goodOf items) :
    it ∈ items ∧ (extract_year_text it).2 ≠ [] ∧
      is_positiveish_text (extract_year_text it).2 = true := by
  have h2 := List.mem_filter.1 h
  have h3 := h2.2
  rw [Bool.and_eq_true] at h3
  obtain ⟨hne, hpos⟩ := h3
  refine ⟨h2.1, ?_, hpos⟩
  intro he
  rw [he] at hne
  simp at hne

theorem mem_betterOf {items : List Item} {it : Item} (h : it ∈ betterOf items) :
    it ∈ goodOf items ∧ hasPositiveHint (extract_year_text it).2 = true :=
  ⟨(List.mem_filter.1 h).1, (List.mem_filter.1 h).2⟩

/-- C10: whenever `pick_positiveish_item` returns an item, that item belongs to
the input list, its extracted text is non-empty, and `is_positiveish_text`
holds of that text. -/
theorem c10_pick_positiveish_sound (items : List Item) (seed : Int) (it : Item)
    (h : pick_positiveish_item items seed = some it) :
    it ∈ items ∧ (extract_year_text it).2 ≠ [] ∧
      is_positiveish_text (extract_year_text it).2 = true := by
  cases items with
  | nil => simp [pick_positiveish_item] at h
  | cons x xs =>
    rw [pick_positiveish_eq (by simp)] at h
    have hmem := choiceD_mem h
    by_cases hb : (betterOf (x :: xs)).isEmpty = true
    · rw [if_pos hb] at hmem
      exact mem_goodOf hmem
    · rw [if_neg hb] at hmem
      exact mem_goodOf (mem_betterOf hmem).1

/-- Witness for C10 at a concrete input. -/
theorem c10_pick_positiveish_witness :
    ev1990 ∈ [ev1990] ∧ (extract_year_text ev1990).2 ≠ [] ∧
      is_positiveish_text (extract_year_text ev1990).2 = true :=
  c10_pick_positiveish_sound [ev1990] 0 ev1990 (by decide)

/-- C6 counterexample: an item whose non-empty text matches a positive hint
("won") exists, yet the pick returns `None` rather than choosing among the
positive-hint matches, because the source restricts the preferred pool to
positive-ish items and "He won the war" is classified negative. -/
theorem c6_pick_positiveish_counterexample :
    hasPositiveHint (extract_year_text evWonWar).2 = true
    ∧ (extract_year_text evWonWar).2 ≠ []
    ∧ pick_positiveish_item [evWonWar] 7 = none :=
  ⟨by decide, by decide, by decide⟩

/-- C6 (amended): the pick chooses from the non-empty positive-ish items that
also match a positive hint when any exist, otherwise from the non-empty
positive-ish (non-negative) items, and returns `None` exactly when no
non-empty positive-ish item exists; the two-event scenario selects the 1990
item for every seed, and a `None` headline makes the composer use the generic
fallback sentence. -/
theorem c6_pick_positiveish_amended (items : List Item) (seed : Int) :
    (goodOf items = [] → pick_positiveish_item items seed = none)
    ∧ (betterOf items ≠ [] →
        ∃ it, pick_positiveish_item items seed = some it ∧ it ∈ betterOf items)
    ∧ (betterOf items = [] → goodOf items ≠ [] →
        ∃ it, pick_positiveish_item items seed = some it ∧ it ∈ goodOf items)
    ∧ (∀ s : Int, pick_positiveish_item [ev1990, ev1941] s = some ev1990)
    ∧ (∀ (dl ff : Str) (bf rf : List Item) (bh : List BRecord) (fb : List Str),
        pick_positiveish_item items (seed + 1) = none →
        (sms_raw dl ff items bf rf bh fb seed).getD 1 [] = fallbackHeadline) := by
  refine ⟨?_, ?_, ?_, ?_, ?_⟩
  · intro hg
    cases items with
    | nil => rfl
    | cons x xs =>
      have hb : betterOf (x :: xs) = [] := by
        rw [betterOf, hg]
        rfl
      rw [pick_positiveish_eq (by simp), if_pos (by rw [hb]; rfl), hg]
      rfl
  · intro hb
    cases items with
    | nil => simp [betterOf, goodOf] at hb
    | cons x xs =>
      have hbe : (betterOf (x :: xs)).isEmpty = false := by
        cases hbb : betterOf (x :: xs) with
        | nil => exact absurd hbb hb
        | cons a t => rfl
      rw [pick_positiveish_eq (by simp), if_neg (by simp [hbe])]
      exact choiceD_of_ne_nil _ hb
  · intro hb hg
    cases items with
    | nil => simp [goodOf] at hg
    | cons x xs =>
      rw [pick_positiveish_eq (by simp), if_pos (by rw [hb]; rfl)]
      exact choiceD_of_ne_nil _ hg
  · intro s
    rw [pick_positiveish_eq (by simp)]
    have hb : betterOf [ev1990, ev1941] = [ev1990] := by decide
    rw [hb, if_neg (by simp)]
    exact choiceD_singleton _ _
  · intro dl ff bf rf bh fb hnone
    simp [sms_raw, hnone]

/-- Witness for C6's amended theorem at a concrete input. -/
theorem c6_pick_positiveish_witness :
    ∃ it, pick_positiveish_item [ev1990] 5 = some it ∧ it ∈ betterOf [ev1990] :=
  (c6_pick_positiveish_amended [ev1990] 5).2.1 (by decide)

/-! ### Lemmas about digits, `strip`, and phone normalization -/

theorem filter_dropWhile_eq {p q : Char → Bool} (hpq : ∀ c, q c = true → p c = false) :
    ∀ l : Str, (l.dropWhile q).filter p = l.filter p
  | [] => rfl
  | a :: t => by
    by_cases hq : q a = true
    · rw [List.dropWhile_cons, if_pos hq, filter_dropWhile_eq hpq t]
      simp [List.filter_cons, hpq a hq]
    · rw [List.dropWhile_cons, if_neg hq]

theorem filter_strip_eq {p : Char → Bool}
    (hws : ∀ c : Char, c.isWhitespace = true → p c = false) (l : Str) :
    (strip l).filter p = l.filter p := by
  rw [strip, List.filter_reverse, filter_dropWhile_eq hws, List.filter_reverse,
    List.reverse_reverse, filter_dropWhile_eq hws]

theorem ws_not_digit (c : Char) (h : c.isWhitespace = true) : c.isDigit = false := by
  simp [Char.isWhitespace] at h
  rcases h with ((h | h) | h) | h <;> subst h <;> decide

theorem filter_phoneFormat {d : Str} (hd : ∀ c ∈ d, c.isDigit = true) :
    (phoneFormat d).filter Char.isDigit =
      d.take 3 ++ ((d.drop 3).take 3 ++ (d.drop 6).take 4) := by
  have hA : (d.take 3).filter Char.isDigit = d.take 3 :=
    List.filter_eq_self.mpr (fun c hc => hd c (List.take_subset _ _ hc))
  have hB : ((d.drop 3).take 3).filter Char.isDigit = (d.drop 3).take 3 :=
    List.filter_eq_self.mpr
      (fun c hc => hd c (List.drop_subset _ _ (List.take_subset _ _ hc)))
  have hC : ((d.drop 6).take 4).filter Char.isDigit = (d.drop 6).take 4 :=
    List.filter_eq_self.mpr
      (fun c hc => hd c (List.drop_subset _ _ (List.take_subset _ _ hc)))
  rw [phoneFormat, List.filter_append]
  rw [hA, List.filter_cons]
  simp only [show ('-').isDigit = false from rfl, Bool.false_eq_true, if_false]
  rw [List.filter_append, hB, List.filter_cons]
  simp only [show ('-').isDigit = false from rfl, Bool.false_eq_true, if_false]
  rw [hC]

theorem segments_eq {d : Str} (h : d.length = 10) :
    d.take 3 ++ ((d.drop 3).take 3 ++ (d.drop 6).take 4) = d := by
  have h1 : (d.drop 6).take 4 = d.drop 6 := by
    apply List.take_of_length_le
    rw [List.length_drop]
    omega
  have h2 : d.drop 6 = (d.drop 3).drop 3 := by
    rw [List.drop_drop]
  rw [h1, h2, List.take_append_drop, List.take_append_drop]

/-- C9: `normalize_phone` is idempotent; a string with exactly ten digit
characters maps to the `DDD-DDD-DDDD` form, which is itself a ten-digit
string mapping to itself; any other string maps to its whitespace-trimmed
self. -/
theorem c9_normalize_phone_spec (s : Str) :
    normalize_phone (normalize_phone s) = normalize_phone s
    ∧ ((s.filter Char.isDigit).length = 10 →
        normalize_phone s = phoneFormat (s.filter Char.isDigit)
        ∧ (phoneFormat (s.filter Char.isDigit)).filter Char.isDigit =
            s.filter Char.isDigit
        ∧ normalize_phone (phoneFormat (s.filter Char.isDigit)) =
            phoneFormat (s.filter Char.isDigit))
    ∧ ((s.filter Char.isDigit).length ≠ 10 → normalize_phone s = strip s) := by
  have hdig : ∀ c ∈ s.filter Char.isDigit, c.isDigit = true :=
    fun c hc => (List.mem_filter.1 hc).2
  have hstripdig : (strip s).filter Char.isDigit = s.filter Char.isDigit :=
    filter_strip_eq ws_not_digit s
  by_cases h10 : (s.filter Char.isDigit).length = 10
  · have h1 : normalize_phone s = phoneFormat (s.filter Char.isDigit) := by
      simp only [normalize_phone]
      rw [if_pos h10]
    have h2 : (phoneFormat (s.filter Char.isDigit)).filter Char.isDigit =
        s.filter Char.isDigit := by
      rw [filter_phoneFormat hdig, segments_eq h10]
    have h3 : normalize_phone (phoneFormat (s.filter Char.isDigit)) =
        phoneFormat (s.filter Char.isDigit) := by
      simp only [normalize_phone]
      rw [h2, if_pos h10]
    refine ⟨?_, fun _ => ⟨h1, h2, h3⟩, fun h => absurd h10 h⟩
    rw [h1, h3]
  · have h1 : normalize_phone s = strip s := by
      simp only [normalize_phone]
      rw [if_neg h10]
    have h2 : normalize_phone (strip s) = strip (strip s) := by
      simp only [normalize_phone]
      rw [hstripdig, if_neg h10]
    refine ⟨?_, fun h => absurd h h10, fun _ => h1⟩
    rw [h1, h2, strip_idem]

/-- Witness for C9 at a concrete ten-digit input. -/
theorem c9_normalize_phone_witness :
    normalize_phone ("(555) 123-4567".data) =
      phoneFormat (("(555) 123-4567".data).filter Char.isDigit) :=
  ((c9_normalize_phone_spec ("(555) 123-4567".data)).2.1 (by decide)).1

/-! ### Lemmas about deduplication and the famous-birthday picker -/

theorem beq_symm_str (a b : Str) : (a == b) = (b == a) := by
  by_cases h : a = b
  · subst h
    rfl
  · have h1 : (a == b) = false := beq_eq_false_iff_ne.mpr h
    have h2 : (b == a) = false := beq_eq_false_iff_ne.mpr (Ne.symm h)
    rw [h1, h2]

theorem specDedupeF_congr : ∀ (f1 f2 : Nat) (l : List Str),
    l.length ≤ f1 → l.length ≤ f2 → specDedupeF f1 l = specDedupeF f2 l
  | 0, 0, l, _, _ => rfl
  | 0, _ + 1, [], _, _ => rfl
  | _ + 1, 0, [], _, _ => rfl
  | _ + 1, _ + 1, [], _, _ => rfl
  | 0, _, x :: xs, h1, _ => by simp at h1
  | _ + 1, 0, x :: xs, _, h2 => by simp at h2
  | f1 + 1, f2 + 1, x :: xs, h1, h2 => by
    simp only [specDedupeF]
    congr 1
    have hle := List.length_filter_le (fun y => !(lowerStr y == lowerStr x)) xs
    simp only [List.length_cons] at h1 h2
    exact specDedupeF_congr f1 f2 _ (le_trans hle (by omega)) (le_trans hle (by omega))

theorem specDedupe_cons (x : Str) (xs : List Str) :
    specDedupe (x :: xs) =
      x :: specDedupe (xs.filter (fun y => !(lowerStr y == lowerStr x))) := by
  simp only [specDedupe, List.length_cons, specDedupeF]
  congr 1
  exact specDedupeF_congr _ _ _ (List.length_filter_le _ _) le_rfl

theorem dedupeGo_eq : ∀ (l : List Str) (seen : List Str),
    dedupeGo seen l =
      specDedupe (l.filter (fun y => !(seen.any (fun s => s == lowerStr y))))
  | [], seen => rfl
  | x :: xs, seen => by
    by_cases hs : seen.any (fun s => s == lowerStr x) = true
    · simp only [dedupeGo]
      rw [if_pos hs, List.filter_cons]
      simp only [hs, Bool.not_true, Bool.false_eq_true, if_false]
      exact dedupeGo_eq xs seen
    · have hs2 : seen.any (fun s => s == lowerStr x) = false := by
        revert hs
        cases seen.any (fun s => s == lowerStr x) <;> simp
      simp only [dedupeGo]
      rw [if_neg hs, List.filter_cons]
      simp only [hs2, Bool.not_false, if_true]
      rw [specDedupe_cons, dedupeGo_eq xs (lowerStr x :: seen)]
      congr 1
      rw [List.filter_filter]
      congr 1
      apply List.filter_congr
      intro y _
      simp only [List.any_cons, Bool.not_or]
      rw [beq_symm_str (lowerStr x) (lowerStr y)]

theorem pick_famous_eq {births : List Item} (h : births ≠ []) (seed : Int) (n : Nat) :
    pick_famous_birthdays births seed n =
      (if (dedupeGo [] (famousCandidates births)).isEmpty then []
       else if (dedupeGo [] (famousCandidates births)).length ≤ n then
         dedupeGo [] (famousCandidates births)
       else sampleGo (rngInit (seed + 4242)) n (dedupeGo [] (famousCandidates births))) := by
  cases births with
  | nil => exact absurd rfl h
  | cons x xs => rfl

/-- C7: `pick_famous_birthdays` keeps candidate names from non-empty
positive-ish birth texts (the trimmed text before the first comma, when
non-empty), deduplicates them case-insensitively preserving first-seen order,
and returns all unique names in first-seen order whenever their count is at
most `n`; the empty input yields `[]`, in particular for `seed = 1`, `n = 2`. -/
theorem c7_pick_famous_spec (births : List Item) (seed : Int) (n : Nat) :
    dedupeGo [] (famousCandidates births) = specDedupe (famousCandidates births)
    ∧ ((specDedupe (famousCandidates births)).length ≤ n →
        pick_famous_birthdays births seed n = specDedupe (famousCandidates births))
    ∧ pick_famous_birthdays [] seed n = []
    ∧ pick_famous_birthdays [] 1 2 = [] := by
  have hd : dedupeGo [] (famousCandidates births) =
      specDedupe (famousCandidates births) := by
    rw [dedupeGo_eq]
    congr 1
    exact List.filter_eq_self.mpr (fun a _ => rfl)
  refine ⟨hd, ?_, rfl, rfl⟩
  intro hlen
  cases births with
  | nil => rfl
  | cons b bs =>
    rw [pick_famous_eq (by simp), hd]
    by_cases he : (specDedupe (famousCandidates (b :: bs))).isEmpty = true
    · rw [if_pos he]
      cases hc : specDedupe (famousCandidates (b :: bs)) with
      | nil => rfl
      | cons z zs =>
        rw [hc] at he
        simp at he
    · rw [if_neg he, if_pos hlen]

/-- Witness for C7: a single birth record whose unique-name count is below `n`. -/
theorem c7_pick_famous_witness :
    pick_famous_birthdays [evBirth] 1 5 = specDedupe (famousCandidates [evBirth]) :=
  (c7_pick_famous_spec [evBirth] 1 5).2.1 (by decide)

/-! ### Lemmas about the lexicographic key comparison and the birthday sort -/

theorem strLe_total : ∀ a b : Str, strLe a b = true ∨ strLe b a = true
  | [], _ => Or.inl rfl
  | _ :: _, [] => Or.inr rfl
  | c :: cs, d :: ds => by
    by_cases h1 : c.toNat < d.toNat
    · left
      simp [strLe, h1]
    · by_cases h2 : d.toNat < c.toNat
      · right
        simp [strLe, h2]
      · rcases strLe_total cs ds with h | h
        · left
          simp [strLe, h1, h2, h]
        · right
          simp [strLe, h1, h2, h]

theorem strLe_trans : ∀ a b c : Str,
    strLe a b = true → strLe b c = true → strLe a c = true
  | [], _, _, _, _ => rfl
  | _ :: _, [], _, h1, _ => by simp [strLe] at h1
  | _ :: _, _ :: _, [], _, h2 => by simp [strLe] at h2
  | x :: xs, y :: ys, z :: zs, h1, h2 => by
    simp only [strLe] at h1 h2 ⊢
    by_cases hxy : x.toNat < y.toNat
    · by_cases hyz : y.toNat < z.toNat
      · have hxz : x.toNat < z.toNat := Nat.lt_trans hxy hyz
        simp [hxz]
      · by_cases hzy : z.toNat < y.toNat
        · rw [if_neg hyz, if_pos hzy] at h2
          simp at h2
        · have hyzeq : y.toNat = z.toNat :=
            Nat.le_antisymm (Nat.not_lt.1 hzy) (Nat.not_lt.1 hyz)
          have hxz : x.toNat < z.toNat := hyzeq ▸ hxy
          simp [hxz]
    · by_cases hyx : y.toNat < x.toNat
      · rw [if_neg hxy, if_pos hyx] at h1
        simp at h1
      · have hxyeq : x.toNat = y.toNat :=
          Nat.le_antisymm (Nat.not_lt.1 hyx) (Nat.not_lt.1 hxy)
        rw [if_neg hxy, if_neg hyx] at h1
        by_cases hyz : y.toNat < z.toNat
        · have hxz : x.toNat < z.toNat := hxyeq ▸ hyz
          simp [hxz]
        · by_cases hzy : z.toNat < y.toNat
          · rw [if_neg hyz, if_pos hzy] at h2
            simp at h2
          · have hyzeq : y.toNat = z.toNat :=
              Nat.le_antisymm (Nat.not_lt.1 hzy) (Nat.not_lt.1 hyz)
            rw [if_neg hyz, if_neg hzy] at h2
            have hxz1 : ¬ x.toNat < z.toNat := by omega
            have hxz2 : ¬ z.toNat < x.toNat := by omega
            rw [if_neg hxz1, if_neg hxz2]
            exact strLe_trans xs ys zs h1 h2

/-- C3 counterexample: with last name tokens "Zane" and "Zan" (one a proper
prefix of the other) the code's pipe-joined key sorts "Ann Zane" before
"Bob Zan", while the claim's composite pair key (lowercased last token, then
lowercased full name) demands "Bob Zan" first; the returned list is therefore
not sorted by the claim's key. -/
theorem c3_birthdays_for_date_counterexample :
    birthdays_for_date [annZane, bobZan] 5 14 = [annZane, bobZan]
    ∧ claimSortedB (birthdays_for_date [annZane, bobZan] 5 14) = false
    ∧ claimSortedB [bobZan, annZane] = true :=
  ⟨by decide, by decide, by decide⟩

/-- C3 (amended): `birthdays_for_date` returns exactly the records whose
integer-coerced month and day fields equal the query (a permutation of the
filtered list), sorted ascending by the single lowercased key string
`"last|name"` (the pipe-joined composite compared lexicographically, which
agrees with the pair key except when one last token is a proper prefix of
another); "Zoe Adams" and "Amy Zane" sort with "Zoe Adams" first. -/
theorem c3_birthdays_for_date_amended (birthdays : List BRecord) (month day : Int)
    (h1 : 1 ≤ month) (h2 : month ≤ 12) (h3 : 1 ≤ day) (h4 : day ≤ 31) :
    (birthdays_for_date birthdays month day).Perm
        (birthdays.filter (matchB month day))
    ∧ List.Sorted brLe (birthdays_for_date birthdays month day)
    ∧ birthdays_for_date [zoeAdams, amyZane] 3 7 = [zoeAdams, amyZane] := by
  refine ⟨List.perm_insertionSort brLe _, ?_, by decide⟩
  haveI hTot : IsTotal BRecord brLe := ⟨fun a b => strLe_total _ _⟩
  haveI hTr : IsTrans BRecord brLe := ⟨fun a b c => strLe_trans _ _ _⟩
  exact List.sorted_insertionSort brLe _

/-- Witness for C3's amended theorem at a concrete input. -/
theorem c3_birthdays_for_date_witness :
    birthdays_for_date [zoeAdams, amyZane] 3 7 = [zoeAdams, amyZane] :=
  (c3_birthdays_for_date_amended [zoeAdams, amyZane] 3 7 (by decide) (by decide)
    (by decide) (by decide)).2.2

/-! ### Lemmas about the summary composer -/

theorem lastSp_of_getLast? : ∀ {l : Str} {d : Char},
    l.getLast? = some d → lastSp l = (d == ' ')
  | [], d, h => by simp at h
  | [c], d, h => by
    simp at h
    subst h
    rfl
  | c1 :: c2 :: t, d, h => by
    rw [getLast?_cons_of_ne (by simp)] at h
    show lastSp (c2 :: t) = (d == ' ')
    exact lastSp_of_getLast? h

theorem stripped_headSp {q : Str} (hne : q ≠ []) (hs : strip q = q) :
    headSp q = false := by
  cases q with
  | nil => exact absurd rfl hne
  | cons c t =>
    have hws : c.isWhitespace = false := strip_head_false hs
    rw [headSp]
    by_cases hc : c = ' '
    · subst hc
      exact absurd hws (by decide)
    · exact beq_eq_false_iff_ne.mpr hc

theorem stripped_lastSp {q : Str} (hs : strip q = q) (d : Char)
    (hg : q.getLast? = some d) : lastSp q = false := by
  have hd : d.isWhitespace = false := strip_last_false (by rw [hs]; exact hg)
  rw [lastSp_of_getLast? hg]
  by_cases hc : d = ' '
  · subst hc
    exact absurd hd (by decide)
  · exact beq_eq_false_iff_ne.mpr hc

theorem mem_sms_kept {dl ff : Str} {fe bf rf : List Item} {bh : List BRecord}
    {fb : List Str} {seed : Int} {q : Str}
    (hq : q ∈ sms_kept dl ff fe bf rf bh fb seed) :
    q ≠ [] ∧ strip q = q ∧ lastIsPunct q = true := by
  rw [sms_kept] at hq
  have h1 := List.mem_filter.1 hq
  obtain ⟨p, hp, hps⟩ := List.mem_map.1 h1.1
  obtain ⟨r, _, hrs⟩ := List.mem_map.1 hp
  rcases sentence_cases r with h0 | ⟨hne, hstr, hpunct⟩
  · exfalso
    have hqnil : q = [] := by rw [← hps, ← hrs, h0]; rfl
    rw [hqnil] at h1
    simp at h1
  · have hq2 : q = sentence r := by rw [← hps, ← hrs]; exact hstr
    rw [hq2]
    exact ⟨hne, hstr, hpunct⟩

theorem sms_raw_head (dl ff : Str) (fe bf rf : List Item) (bh : List BRecord)
    (fb : List Str) (seed : Int) :
    ∃ t, sms_raw dl ff fe bf rf bh fb seed =
      ((openersOf dl).getD ((choiceIdx (rngInit (seed + 999)) 4).1) []) :: t :=
  ⟨_, rfl⟩

theorem opener_strip_ne_nil (dl : Str) (i : Nat) (hi : i < 4) :
    strip ((openersOf dl).getD i []) ≠ [] := by
  interval_cases i
  · apply strip_ne_nil_of_mem (c := '🎉')
    · simp only [openersOf, List.getD_cons_zero]
      exact List.mem_append_left _ (List.mem_append_left _ (by decide))
    · decide
  · apply strip_ne_nil_of_mem (c := '✨')
    · simp only [openersOf, List.getD_cons_succ, List.getD_cons_zero]
      exact List.mem_append_left _ (List.mem_append_left _ (by decide))
    · decide
  · apply strip_ne_nil_of_mem (c := '🎈')
    · simp only [openersOf, List.getD_cons_succ, List.getD_cons_zero]
      exact List.mem_append_left _ (List.mem_append_left _ (by decide))
    · decide
  · apply strip_ne_nil_of_mem (c := '💌')
    · simp only [openersOf, List.getD_cons_succ, List.getD_cons_zero]
      exact List.mem_append_left _ (List.mem_append_left _ (by decide))
    · decide

theorem sms_kept_ne_nil (dl ff : Str) (fe bf rf : List Item) (bh : List BRecord)
    (fb : List Str) (seed : Int) : sms_kept dl ff fe bf rf bh fb seed ≠ [] := by
  obtain ⟨t, ht⟩ := sms_raw_head dl ff fe bf rf bh fb seed
  have hilt : (choiceIdx (rngInit (seed + 999)) 4).1 < 4 := Nat.mod_lt _ (by decide)
  have hsne : strip ((openersOf dl).getD ((choiceIdx (rngInit (seed + 999)) 4).1) []) ≠ [] :=
    opener_strip_ne_nil dl _ hilt
  have hsen := sentence_ne_nil hsne
  rcases sentence_cases ((openersOf dl).getD ((choiceIdx (rngInit (seed + 999)) 4).1) [])
    with h0 | ⟨hne, hstr, _⟩
  · exact absurd h0 hsen
  · have hmem : sentence ((openersOf dl).getD ((choiceIdx (rngInit (seed + 999)) 4).1) []) ∈
        sms_kept dl ff fe bf rf bh fb seed := by
      rw [sms_kept, ht]
      apply List.mem_filter.2
      refine ⟨?_, ?_⟩
      · apply List.mem_map.2
        refine ⟨sentence ((openersOf dl).getD ((choiceIdx (rngInit (seed + 999)) 4).1) []),
          ?_, hstr⟩
        exact List.mem_map.2 ⟨_, List.mem_cons_self _ _, rfl⟩
      · cases hse : sentence ((openersOf dl).getD ((choiceIdx (rngInit (seed + 999)) 4).1) [])
          with
        | nil => exact absurd hse hne
        | cons a b => rfl
    intro hnil
    rw [hnil] at hmem
    simp at hmem

/-- C8: the composed summary is exactly the single-space join of the kept
sentences; every kept sentence is non-blank, already stripped, and ends with
'.', '!' or '?'; the kept list is never empty, so the whole output ends in
terminal punctuation; and the join introduces no double spaces (if every kept
sentence is free of adjacent double spaces, so is the whole output). -/
theorem c8_make_sms_summary_spec (dl ff : Str) (fe bf rf : List Item)
    (bh : List BRecord) (fb : List Str) (seed : Int) :
    make_sms_summary dl ff fe bf rf bh fb seed =
        joinSp (sms_kept dl ff fe bf rf bh fb seed)
    ∧ sms_kept dl ff fe bf rf bh fb seed ≠ []
    ∧ (∀ q ∈ sms_kept dl ff fe bf rf bh fb seed,
        q ≠ [] ∧ strip q = q ∧ lastIsPunct q = true)
    ∧ lastIsPunct (make_sms_summary dl ff fe bf rf bh fb seed) = true
    ∧ ((∀ q ∈ sms_kept dl ff fe bf rf bh fb seed, hasDbl q = false) →
        hasDbl (make_sms_summary dl ff fe bf rf bh fb seed) = false) := by
  have hmem : ∀ q ∈ sms_kept dl ff fe bf rf bh fb seed,
      q ≠ [] ∧ strip q = q ∧ lastIsPunct q = true := fun q hq => mem_sms_kept hq
  have hne := sms_kept_ne_nil dl ff fe bf rf bh fb seed
  refine ⟨rfl, hne, hmem, ?_, ?_⟩
  · show lastIsPunct (joinSp (sms_kept dl ff fe bf rf bh fb seed)) = true
    exact lastIsPunct_joinSp hne (fun p hp => ⟨(hmem p hp).1, (hmem p hp).2.2⟩)
  · intro hdb
    show hasDbl (joinSp (sms_kept dl ff fe bf rf bh fb seed)) = false
    apply hasDbl_joinSp
    intro p hp
    obtain ⟨h1, h2, _⟩ := hmem p hp
    refine ⟨h1, stripped_headSp h1 h2, ?_, hdb p hp⟩
    cases hg : p.getLast? with
    | none =>
      cases p with
      | nil => exact absurd rfl h1
      | cons a b => simp at hg
    | some d => exact stripped_lastSp h2 d hg

/-- Witness for C8 at a concrete input: no kept sentence carries a double
space, hence neither does the composed summary. -/
theorem c8_make_sms_summary_witness :
    hasDbl (make_sms_summary ("May 14".data) ("Neat".data) [] [] [] [] [] 514) = false :=
  (c8_make_sms_summary_spec ("May 14".data) ("Neat".data) [] [] [] [] [] 514).2.2.2.2
    (by decide)
